import Mathlib

/-!
# Verification of the wallet-migration consolidation planner

Shallow embedding of the three planning algorithms of the repository
(`transferGas`, `transferTokens`, `transferBalances`/`getBalanceTx` in
`main.go`, plus the token gas-limit selection of `RPC/Client.go`), with
theorems settling the specification claims.

Modelling conventions:
* `big.Int` values become `Int`; `uint64` nonces and gas limits become `Nat`.
* Addresses are opaque `Nat` identifiers except where byte-level layout
  matters (the ERC20 `transfer` call data), where they are byte lists.
* Go's in-place mutation of the shared account slice is modelled by
  explicit state passing: each planner returns the updated account list
  together with the emitted transactions.
* `sort.Slice` with the source's comparison closures is modelled by
  `List.insertionSort` over the corresponding relation.  The source
  comparators are non-strict (they hold in both directions on ties), so
  Go's unstable sort is only determined up to ties; every concrete input
  evaluated below is tie-free, where any correct sort for the comparator
  produces the same list.
* The recursion of `transferGas` is given an explicit fuel argument
  (`none` = fuel ran out); termination is then a provable statement
  rather than an assumption.
-/

/-- A token holding of an account (`Accounts.Token` in the source):
contract address, raw integer balance, and the estimated gas limit for a
transfer.  `Symbol`/`Decimals` are display-only and omitted. -/
structure Token where
  contract : Nat
  balance : Int
  gasLimit : Nat
  deriving Repr, DecidableEq

/-- An account (`Accounts.Account` in the source).  `totalAssetTransfer`
is the accumulated gas-unit budget needed to sweep all the account's
tokens (`TotalAssetTransfer`); `available` is the planning scratch field
(`Available`).  The signing key and chain id play no role in the claims
and are omitted; a transaction's originator is identified by `address`. -/
structure Account where
  address : Nat
  balance : Int
  totalAssetTransfer : Int
  available : Int
  nonce : Nat
  tokens : List Token
  deriving Repr, DecidableEq

/-- A signed transaction together with its originator
(`RPC.TransactionWithOriginator` plus the fields of `types.Transaction`
that the planner chooses: nonce, destination, value, gas limit, gas
price, call data). -/
structure Tx where
  sender : Nat
  nonce : Nat
  toAddr : Nat
  value : Int
  gasLimit : Nat
  gasPrice : Int
  data : List Nat
  deriving Repr, DecidableEq

/-- `Account.TotalAssetTransferPrice`: gas price times the account's
total token-sweep gas budget. -/
def totalAssetTransferPrice (gasPrice : Int) (a : Account) : Int :=
  gasPrice * a.totalAssetTransfer

/-- `Token.TotalTransferPrice`: gas price times the token's gas limit. -/
def totalTransferPrice (gasPrice : Int) (t : Token) : Int :=
  gasPrice * (t.gasLimit : Int)

/-- The partition test of `transferGas`:
`TotalAssetTransferPrice(gasPrice).Cmp(Balance) > 0` sends the account to
the deficit (`negatives`) side. -/
def isNegative (gasPrice : Int) (a : Account) : Bool :=
  a.balance < totalAssetTransferPrice gasPrice a

/-- The in-place update `Available.Sub(Balance, TotalAssetTransferPrice)`
performed on every account at the start of each `transferGas` call. -/
def recomputeAvailable (gasPrice : Int) (a : Account) : Account :=
  { a with available := a.balance - totalAssetTransferPrice gasPrice a }

/-- The surplus-side comparator of `transferGas`
(`positives[i].Available.Cmp(positives[j].Available) >= 0`): `a` sorts
before `b` when `a.available ≥ b.available`. -/
def posOrder (a b : Account) : Prop := b.available ≤ a.available

/-- The deficit-side comparator of `transferGas`
(`negatives[i].Available.Cmp(negatives[j].Available) <= 0`): `a` sorts
before `b` when `a.available ≤ b.available`. -/
def negOrder (a b : Account) : Prop := a.available ≤ b.available

/-- The token comparator of `transferTokens`
(`Tokens[i].Balance.Cmp(Tokens[j].Balance) >= 0`): `t` sorts before `u`
when `t.balance ≥ u.balance`. -/
def tokenOrder (t u : Token) : Prop := u.balance ≤ t.balance

instance : DecidableRel posOrder :=
  fun a b => inferInstanceAs (Decidable (b.available ≤ a.available))

instance : DecidableRel negOrder :=
  fun a b => inferInstanceAs (Decidable (a.available ≤ b.available))

instance : DecidableRel tokenOrder :=
  fun t u => inferInstanceAs (Decidable (u.balance ≤ t.balance))

instance : IsTotal Account posOrder := ⟨fun a b => le_total b.available a.available⟩

instance : IsTrans Account posOrder := ⟨fun _ _ _ h1 h2 => le_trans h2 h1⟩

instance : IsTotal Account negOrder := ⟨fun a b => le_total a.available b.available⟩

instance : IsTrans Account negOrder := ⟨fun _ _ _ h1 h2 => le_trans h1 h2⟩

instance : IsTotal Token tokenOrder := ⟨fun t u => le_total u.balance t.balance⟩

instance : IsTrans Token tokenOrder := ⟨fun _ _ _ h1 h2 => le_trans h2 h1⟩

/-- The gas-redistribution planner (`transferGas` in `main.go`).

Each call recomputes `Available` for every account, partitions into
deficit (`negatives`) and surplus (`positives`) sides, sorts them with
the source's comparators, and — because the clamping branch of the
source resets `availableAfterTransfer` to `0`, making the emission guard
`availableAfterTransfer.Sign() >= 0` always true — emits a transaction
for the very first (deficit, surplus) pair whenever both sides are
nonempty, then restarts on the combined updated list.  The surplus head
pays `Available − (need + fee)` into its `Balance` (the source subtracts
from `Available`, not `Balance`, and in the clamping branch uses the
stale un-clamped `totalAmountNeededToTransfer`); the deficit head's
`Balance` grows by the (possibly clamped) amount.  `fuel` bounds the
recursion depth; `none` means the fuel ran out. -/
def transferGas (fuel : Nat) (gasPrice : Int) (accounts : List Account)
    (transactions : List Tx) : Option (List Account × List Tx) :=
  match fuel with
  | 0 => none
  | fuel + 1 =>
    let updated := accounts.map (recomputeAvailable gasPrice)
    let negatives := List.insertionSort negOrder
      (updated.filter (fun a => isNegative gasPrice a))
    let positives := List.insertionSort posOrder
      (updated.filter (fun a => !isNegative gasPrice a))
    match negatives, positives with
    | negHead :: negTail, posHead :: posTail =>
      let totalAmountNeeded := totalAssetTransferPrice gasPrice negHead
      let transferCost := gasPrice * 21000
      let totalAmountNeededToTransfer := totalAmountNeeded + transferCost
      let availableAfterTransfer := posHead.available - totalAmountNeededToTransfer
      let amount :=
        if availableAfterTransfer < 0 then posHead.available - transferCost
        else totalAmountNeeded
      let tx : Tx :=
        { sender := posHead.address, nonce := posHead.nonce,
          toAddr := negHead.address, value := amount, gasLimit := 21000,
          gasPrice := gasPrice, data := [] }
      let posHead' :=
        { posHead with
            balance := posHead.available - totalAmountNeededToTransfer,
            nonce := posHead.nonce + 1 }
      let negHead' := { negHead with balance := negHead.balance + amount }
      transferGas fuel gasPrice ((negHead' :: negTail) ++ (posHead' :: posTail))
        (transactions ++ [tx])
    | _, _ => some (updated, transactions)

/-- Big-endian minimal byte encoding of a natural number, written with a
structural fuel argument (the number itself bounds the recursion depth)
so that concrete inputs evaluate by kernel reduction.  Models
`big.Int.Bytes()`, which returns the minimal big-endian bytes of the
absolute value (the empty slice for zero). -/
def natToBEBytesAux : Nat → Nat → List Nat
  | 0, _ => []
  | fuel + 1, n =>
    if n = 0 then [] else natToBEBytesAux fuel (n / 256) ++ [n % 256]

/-- See `natToBEBytesAux`; `n` itself is enough fuel since `n / 256 < n`
for positive `n`. -/
def natToBEBytes (n : Nat) : List Nat := natToBEBytesAux n n

/-- Big-endian value of a byte list (each entry is one byte). -/
def beBytesToNat (l : List Nat) : Nat :=
  l.foldl (fun acc b => acc * 256 + b) 0

/-- `common.LeftPadBytes(b, n)`: left-pad with zero bytes up to length
`n`; a slice already at least `n` long is returned unchanged. -/
def leftPadBytes (b : List Nat) (n : Nat) : List Nat :=
  if n ≤ b.length then b else List.replicate (n - b.length) 0 ++ b

/-- `common.BytesToHash(b).Bytes()` (used via `Address.Hash()`): the
bytes are copied into the tail of a 32-byte hash, so a short input is
left-padded with zeros and an overlong input keeps only its last 32
bytes. -/
def bytesToHash (b : List Nat) : List Nat :=
  if b.length ≤ 32 then List.replicate (32 - b.length) 0 ++ b
  else b.drop (b.length - 32)

/-- The ASCII bytes of the literal method signature string
`transfer(address,uint256)` hashed by `transferTokens`. -/
def transferSignatureBytes : List Nat :=
  "transfer(address,uint256)".toList.map Char.toNat

/-- The ERC20 `transfer` call data built by `transferTokens`: the first
4 bytes of the Keccak-256 digest of `transferSignatureBytes`, the
destination address as a 32-byte hash, and the token amount left-padded
to 32 bytes.  The Keccak-256 permutation itself is an external
collaborator (`golang.org/x/crypto/sha3`) and is passed in as a
function. -/
def transferTokenData (keccak256 : List Nat → List Nat)
    (destinationAddress : List Nat) (amount : Nat) : List Nat :=
  (keccak256 transferSignatureBytes).take 4 ++
    bytesToHash destinationAddress ++ leftPadBytes (natToBEBytes amount) 32

/-- The per-account token loop of `transferTokens`: walk the (already
sorted) token list; for each token whose transfer cost
(`gasPrice × GasLimit`) the account's `Balance` still covers, emit a
zero-value call to the token contract carrying the transfer data, then
advance the account's `Nonce` and debit the fee from its `Balance`; an
unaffordable token is skipped and the loop continues. -/
def sweepTokens (methodID destHash : List Nat) (gasPrice : Int) :
    Account → List Token → Account × List Tx
  | a, [] => (a, [])
  | a, t :: ts =>
    let transferCost := totalTransferPrice gasPrice t
    if transferCost ≤ a.balance then
      let data := methodID ++ destHash ++
        leftPadBytes (natToBEBytes t.balance.natAbs) 32
      let tx : Tx :=
        { sender := a.address, nonce := a.nonce, toAddr := t.contract,
          value := 0, gasLimit := t.gasLimit, gasPrice := gasPrice,
          data := data }
      let a' := { a with nonce := a.nonce + 1, balance := a.balance - transferCost }
      let rest := sweepTokens methodID destHash gasPrice a' ts
      (rest.1, tx :: rest.2)
    else sweepTokens methodID destHash gasPrice a ts

/-- One account's slice of `transferTokens`: sort the account's tokens
by descending raw balance (the source sorts `accounts[x].Tokens` in
place), then run the sweep loop over the sorted list. -/
def transferTokensAccount (methodID destHash : List Nat) (gasPrice : Int)
    (a : Account) : Account × List Tx :=
  let sorted := List.insertionSort tokenOrder a.tokens
  sweepTokens methodID destHash gasPrice { a with tokens := sorted } sorted

/-- The token-sweep planner (`transferTokens` in `main.go`): compute the
4-byte method id once, then process every account in order,
concatenating the emitted transactions. -/
def transferTokens (keccak256 : List Nat → List Nat)
    (destinationAddress : List Nat) (gasPrice : Int) :
    List Account → List Account × List Tx
  | [] => ([], [])
  | a :: rest =>
    let methodID := (keccak256 transferSignatureBytes).take 4
    let destHash := bytesToHash destinationAddress
    let first := transferTokensAccount methodID destHash gasPrice a
    let others := transferTokens keccak256 destinationAddress gasPrice rest
    (first.1 :: others.1, first.2 ++ others.2)

/-- The balance-drain transaction builder (`getBalanceTx` in `main.go`):
if `Balance − gasPrice × 21000` is strictly positive (and the gas price
is), emit a transaction for exactly that remainder at the current gas
price; otherwise, while the gas price is still positive, retry with the
gas price lowered by the fixed decrement 1000000; give up (`none`) once
the gas price is no longer positive.  The account is read, never
written: the transaction's nonce is the account's current `Nonce` and no
fee is debited anywhere. -/
def getBalanceTx (destinationAddress : Nat) (gasPrice : Int) (account : Account) :
    Option Tx :=
  if 0 < account.balance - gasPrice * 21000 ∧ 0 < gasPrice then
    some { sender := account.address, nonce := account.nonce,
           toAddr := destinationAddress, value := account.balance - gasPrice * 21000,
           gasLimit := 21000, gasPrice := gasPrice, data := [] }
  else if 0 < gasPrice then
    getBalanceTx destinationAddress (gasPrice - 1000000) account
  else none
termination_by gasPrice.toNat
decreasing_by omega

/-- The balance-drain planner (`transferBalances` in `main.go`), with
the optional non-simulate `GetPendingBalances` refresh (an external RPC
call) outside the model: each account contributes at most one drain
transaction and, unlike the other two planners, no account field is ever
written, which the explicit state threading records by returning the
accounts as they were visited. -/
def transferBalances (destinationAddress : Nat) (gasPrice : Int) :
    List Account → List Account × List Tx
  | [] => ([], [])
  | a :: rest =>
    let others := transferBalances destinationAddress gasPrice rest
    match getBalanceTx destinationAddress gasPrice a with
    | some tx => (a :: others.1, tx :: others.2)
    | none => (a :: others.1, others.2)

/-- The estimated per-token transfer gas limit of
`Client.getTokenTransfers`: the node's `EstimateGas` answer, or the
fixed fallback 40000 when the query fails. -/
def estimatedGasLimit (estimateResult : Option Nat) : Nat :=
  match estimateResult with
  | some gl => gl
  | none => 40000

/-- The gas limit recorded for a discovered token
(`Client.getTokenTransfers`):  the source computes
`transferGas := int64(float64(gasLimit) * 1.7)` and then replaces it by
the caller's `overrideGasLimit` whenever `gasLimit > 0`.  The binary
floating-point inflation is kept abstract as `inflate` (its exact value
never matters below because the override branch ignores it). -/
def chosenTransferGas (inflate : Nat → Int) (estimateResult : Option Nat)
    (overrideGasLimit : Int) : Int :=
  let gasLimit := estimatedGasLimit estimateResult
  let transferGasValue := inflate gasLimit
  if 0 < gasLimit then overrideGasLimit else transferGasValue

/-- Balance clamped from below at `-C`; the summand of the termination
potential for `transferGas`. -/
def balFloor (C : Int) (a : Account) : Int := max a.balance (-C)

/-- Termination potential for `transferGas`: the sum of the clamped
balances.  Every emitted transaction burns at least the transfer fee
from this sum. -/
def phi (C : Int) (l : List Account) : Int := (l.map (balFloor C)).sum

/-- An upper bound on every deficit account's need
(`TotalAssetTransferPrice`) over an account list. -/
def needBound (gasPrice : Int) (l : List Account) : Int :=
  (l.map (totalAssetTransferPrice gasPrice)).foldr max 0

/-- Enough fuel for `transferGas` to reach its base case (proved in
`transferGas_terminates`). -/
def transferGasFuelBound (gasPrice : Int) (accounts : List Account) : Nat :=
  (phi (needBound gasPrice accounts + gasPrice * 21000) accounts +
    accounts.length * (needBound gasPrice accounts + gasPrice * 21000)).toNat + 1

/-- A concrete account holding two tokens, used to exercise the
token-sweep theorems on a fully evaluated run. -/
def sampleTokenAccount : Account :=
  { address := 1, balance := 100000, totalAssetTransfer := 0, available := 0,
    nonce := 5,
    tokens := [{ contract := 50, balance := 10, gasLimit := 30000 },
               { contract := 60, balance := 99, gasLimit := 40000 }] }

theorem balFloor_recomputeAvailable (C gasPrice : Int) (a : Account) :
    balFloor C (recomputeAvailable gasPrice a) = balFloor C a := rfl

theorem phi_map_recomputeAvailable (C gasPrice : Int) (l : List Account) :
    phi C (l.map (recomputeAvailable gasPrice)) = phi C l := by
  unfold phi
  rw [List.map_map]
  congr 1

theorem phi_perm (C : Int) {l1 l2 : List Account} (h : List.Perm l1 l2) :
    phi C l1 = phi C l2 :=
  (h.map (balFloor C)).sum_eq

theorem phi_append (C : Int) (l1 l2 : List Account) :
    phi C (l1 ++ l2) = phi C l1 + phi C l2 := by
  simp [phi]

theorem phi_cons (C : Int) (a : Account) (l : List Account) :
    phi C (a :: l) = balFloor C a + phi C l := by
  simp [phi]

theorem neg_le_phi (C : Int) (l : List Account) :
    -(l.length * C) ≤ phi C l := by
  induction l with
  | nil => simp [phi]
  | cons a l ih =>
    rw [phi_cons]
    have h1 : -C ≤ balFloor C a := le_max_right _ _
    have h2 : ((a :: l).length : Int) * C = C + l.length * C := by
      simp [List.length_cons]
      ring
    rw [h2]
    linarith

theorem max_add_le_max_add_max (x d m : Int) :
    max (x + d) m ≤ max x m + max d 0 := by
  rcases le_total d 0 with h | h
  · have h0 : max d 0 = 0 := max_eq_right h
    rw [h0, add_zero]
    exact max_le_max (by linarith) le_rfl
  · have h0 : max d 0 = d := max_eq_left h
    rw [h0]
    apply max_le
    · exact add_le_add (le_max_left _ _) le_rfl
    · exact le_trans (le_max_right x m) (by linarith)

theorem le_foldr_max (x : Int) (l : List Int) (h : x ∈ l) :
    x ≤ l.foldr max 0 := by
  induction l with
  | nil => cases h
  | cons y l ih =>
    rcases List.mem_cons.mp h with rfl | h'
    · exact le_max_left _ _
    · exact le_trans (ih h') (le_max_right _ _)

theorem foldr_max_nonneg (l : List Int) : 0 ≤ l.foldr max 0 := by
  induction l with
  | nil => exact le_rfl
  | cons y l ih => exact le_trans ih (le_max_right _ _)

theorem transferGas_base_negNil (fuel : Nat) (gasPrice : Int) (accounts : List Account)
    (txs : List Tx)
    (hneg : List.insertionSort negOrder
      ((accounts.map (recomputeAvailable gasPrice)).filter
        (fun a => isNegative gasPrice a)) = []) :
    transferGas (fuel + 1) gasPrice accounts txs =
      some (accounts.map (recomputeAvailable gasPrice), txs) := by
  rw [transferGas, hneg]

theorem transferGas_base_posNil (fuel : Nat) (gasPrice : Int) (accounts : List Account)
    (txs : List Tx) (negHead : Account) (negTail : List Account)
    (hneg : List.insertionSort negOrder
      ((accounts.map (recomputeAvailable gasPrice)).filter
        (fun a => isNegative gasPrice a)) = negHead :: negTail)
    (hpos : List.insertionSort posOrder
      ((accounts.map (recomputeAvailable gasPrice)).filter
        (fun a => !isNegative gasPrice a)) = []) :
    transferGas (fuel + 1) gasPrice accounts txs =
      some (accounts.map (recomputeAvailable gasPrice), txs) := by
  rw [transferGas, hneg, hpos]

/-- One emitting step of `transferGas`, written out: with both sorted
sides nonempty the planner always transacts on the two heads. -/
theorem transferGas_step (fuel : Nat) (gasPrice : Int) (accounts : List Account)
    (txs : List Tx) (negHead posHead : Account) (negTail posTail : List Account)
    (hneg : List.insertionSort negOrder
      ((accounts.map (recomputeAvailable gasPrice)).filter
        (fun a => isNegative gasPrice a)) = negHead :: negTail)
    (hpos : List.insertionSort posOrder
      ((accounts.map (recomputeAvailable gasPrice)).filter
        (fun a => !isNegative gasPrice a)) = posHead :: posTail) :
    transferGas (fuel + 1) gasPrice accounts txs =
      transferGas fuel gasPrice
        (({ negHead with balance := negHead.balance +
            (if posHead.available -
                (totalAssetTransferPrice gasPrice negHead + gasPrice * 21000) < 0
             then posHead.available - gasPrice * 21000
             else totalAssetTransferPrice gasPrice negHead) } :: negTail) ++
         ({ posHead with
              balance := posHead.available -
                (totalAssetTransferPrice gasPrice negHead + gasPrice * 21000),
              nonce := posHead.nonce + 1 } :: posTail))
        (txs ++ [{ sender := posHead.address, nonce := posHead.nonce,
                   toAddr := negHead.address,
                   value := (if posHead.available -
                       (totalAssetTransferPrice gasPrice negHead + gasPrice * 21000) < 0
                     then posHead.available - gasPrice * 21000
                     else totalAssetTransferPrice gasPrice negHead),
                   gasLimit := 21000, gasPrice := gasPrice, data := [] }]) := by
  rw [transferGas, hneg, hpos]

/-- Arithmetic core of the termination argument: one emitted transfer
lowers the combined clamped balances of the two participating accounts
by at least the fee. -/
theorem step_balFloor_le (N fee pb pp pav need nb : Int)
    (hpp : 0 ≤ pp) (hpav : pav = pb - pp) (hpav0 : 0 ≤ pav)
    (hneed0 : 0 ≤ need) (hneedN : need ≤ N) :
    max (nb + (if pav - (need + fee) < 0 then pav - fee else need)) (-(N + fee)) +
      max (pav - (need + fee)) (-(N + fee)) + fee ≤
    max nb (-(N + fee)) + pb := by
  have hamt : (if pav - (need + fee) < 0 then pav - fee else need) ≤ need := by
    split
    · linarith
    · exact le_rfl
  have hmax0 : max (if pav - (need + fee) < 0 then pav - fee else need) 0 ≤ need :=
    max_le hamt hneed0
  have hA : max (nb + (if pav - (need + fee) < 0 then pav - fee else need)) (-(N + fee)) ≤
      max nb (-(N + fee)) + need := by
    have := max_add_le_max_add_max nb
      (if pav - (need + fee) < 0 then pav - fee else need) (-(N + fee))
    linarith
  have hB : max (pav - (need + fee)) (-(N + fee)) = pav - (need + fee) :=
    max_eq_left (by linarith)
  rw [hB]
  linarith

/-- With enough fuel the recursion of `transferGas` always reaches its
base case: every emitted step burns at least the transfer fee from the
clamped-balance potential `phi`, which is bounded below. -/
theorem transferGas_isSome (fuel : Nat) :
    ∀ (g N : Int) (accounts : List Account) (txs : List Tx),
      1 ≤ g → 0 ≤ N →
      (∀ a ∈ accounts, 0 ≤ a.totalAssetTransfer ∧ g * a.totalAssetTransfer ≤ N) →
      phi (N + g * 21000) accounts + accounts.length * (N + g * 21000) < (fuel : Int) →
      (transferGas fuel g accounts txs).isSome := by
  induction fuel with
  | zero =>
    intro g N accounts txs hg hN hA hm
    exfalso
    have h1 := neg_le_phi (N + g * 21000) accounts
    simp only [Nat.cast_zero] at hm
    linarith
  | succ fuel ih =>
    intro g N accounts txs hg hN hA hm
    rcases hneg : List.insertionSort negOrder
        ((accounts.map (recomputeAvailable g)).filter (fun a => isNegative g a)) with
      _ | ⟨negHead, negTail⟩
    · rw [transferGas_base_negNil fuel g accounts txs hneg]
      rfl
    rcases hpos : List.insertionSort posOrder
        ((accounts.map (recomputeAvailable g)).filter (fun a => !isNegative g a)) with
      _ | ⟨posHead, posTail⟩
    · rw [transferGas_base_posNil fuel g accounts txs negHead negTail hneg hpos]
      rfl
    rw [transferGas_step fuel g accounts txs negHead posHead negTail posTail hneg hpos]
    have hupd : ∀ a ∈ accounts.map (recomputeAvailable g),
        a.available = a.balance - g * a.totalAssetTransfer ∧
        0 ≤ a.totalAssetTransfer ∧ g * a.totalAssetTransfer ≤ N := by
      intro a ha
      obtain ⟨b, hb, rfl⟩ := List.mem_map.mp ha
      exact ⟨rfl, (hA b hb).1, (hA b hb).2⟩
    have hmemNeg : ∀ a ∈ negHead :: negTail, a ∈ accounts.map (recomputeAvailable g) := by
      intro a ha
      have h2 : a ∈ List.insertionSort negOrder
          ((accounts.map (recomputeAvailable g)).filter (fun a => isNegative g a)) := by
        rw [hneg]; exact ha
      exact (List.mem_filter.mp ((List.perm_insertionSort negOrder _).mem_iff.mp h2)).1
    have hmemPos : ∀ a ∈ posHead :: posTail,
        a ∈ accounts.map (recomputeAvailable g) ∧ (!isNegative g a) = true := by
      intro a ha
      have h2 : a ∈ List.insertionSort posOrder
          ((accounts.map (recomputeAvailable g)).filter (fun a => !isNegative g a)) := by
        rw [hpos]; exact ha
      have h3 := (List.perm_insertionSort posOrder _).mem_iff.mp h2
      exact ⟨(List.mem_filter.mp h3).1, (List.mem_filter.mp h3).2⟩
    have hperm : List.Perm ((negHead :: negTail) ++ (posHead :: posTail))
        (accounts.map (recomputeAvailable g)) := by
      rw [← hneg, ← hpos]
      exact (List.Perm.append (List.perm_insertionSort _ _)
        (List.perm_insertionSort _ _)).trans (List.filter_append_perm _ _)
    have hPosHead := hupd posHead (hmemPos posHead (List.mem_cons_self _ _)).1
    have hNegHead := hupd negHead (hmemNeg negHead (List.mem_cons_self _ _))
    have hPosAfford : g * posHead.totalAssetTransfer ≤ posHead.balance := by
      have hb := (hmemPos posHead (List.mem_cons_self _ _)).2
      simp only [isNegative, totalAssetTransferPrice, Bool.not_eq_true',
        decide_eq_false_iff_not, not_lt] at hb
      exact hb
    have hg0 : (0 : Int) ≤ g := by linarith
    have hstep := step_balFloor_le N (g * 21000) posHead.balance
      (g * posHead.totalAssetTransfer) posHead.available
      (g * negHead.totalAssetTransfer) negHead.balance
      (mul_nonneg hg0 hPosHead.2.1)
      hPosHead.1
      (by rw [hPosHead.1]; linarith)
      (mul_nonneg hg0 hNegHead.2.1)
      hNegHead.2.2
    have hphiEq : phi (N + g * 21000) accounts =
        balFloor (N + g * 21000) negHead + phi (N + g * 21000) negTail +
          (balFloor (N + g * 21000) posHead + phi (N + g * 21000) posTail) := by
      have h4 := phi_perm (N + g * 21000) hperm
      rw [phi_append, phi_cons, phi_cons, phi_map_recomputeAvailable] at h4
      linarith
    have hphiNew : phi (N + g * 21000)
        (({ negHead with balance := negHead.balance +
            (if posHead.available -
                (totalAssetTransferPrice g negHead + g * 21000) < 0
             then posHead.available - g * 21000
             else totalAssetTransferPrice g negHead) } :: negTail) ++
         ({ posHead with
              balance := posHead.available -
                (totalAssetTransferPrice g negHead + g * 21000),
              nonce := posHead.nonce + 1 } :: posTail)) =
        max (negHead.balance +
            (if posHead.available - (g * negHead.totalAssetTransfer + g * 21000) < 0
             then posHead.available - g * 21000
             else g * negHead.totalAssetTransfer)) (-(N + g * 21000)) +
          phi (N + g * 21000) negTail +
          (max (posHead.available - (g * negHead.totalAssetTransfer + g * 21000))
            (-(N + g * 21000)) + phi (N + g * 21000) posTail) := by
      rw [phi_append, phi_cons, phi_cons]
      simp only [balFloor, totalAssetTransferPrice]
    have hBFneg : balFloor (N + g * 21000) negHead =
        max negHead.balance (-(N + g * 21000)) := rfl
    have hBFpos : balFloor (N + g * 21000) posHead =
        max posHead.balance (-(N + g * 21000)) := rfl
    have hlen : ((negHead :: negTail) ++ (posHead :: posTail)).length = accounts.length := by
      have h5 := hperm.length_eq
      simpa using h5
    have hfee21 : (21000 : Int) ≤ g * 21000 := by
      have := mul_le_mul_of_nonneg_right hg (by norm_num : (0 : Int) ≤ 21000)
      linarith
    push_cast at hm
    apply ih g N _ _ hg hN
    · intro a ha
      rcases List.mem_append.mp ha with h | h
      · rcases List.mem_cons.mp h with rfl | h'
        · exact hNegHead.2
        · exact (hupd a (hmemNeg a (List.mem_cons_of_mem _ h'))).2
      · rcases List.mem_cons.mp h with rfl | h'
        · exact hPosHead.2
        · exact (hupd a ((hmemPos a (List.mem_cons_of_mem _ h')).1)).2
    · have hlen2 : (({ negHead with balance := negHead.balance +
            (if posHead.available -
                (totalAssetTransferPrice g negHead + g * 21000) < 0
             then posHead.available - g * 21000
             else totalAssetTransferPrice g negHead) } :: negTail) ++
         ({ posHead with
              balance := posHead.available -
                (totalAssetTransferPrice g negHead + g * 21000),
              nonce := posHead.nonce + 1 } :: posTail)).length = accounts.length := by
        simpa using hlen
      rw [hlen2, hphiNew]
      rw [hphiEq, hBFneg, hBFpos] at hm
      have hpbmax : posHead.balance ≤ max posHead.balance (-(N + g * 21000)) :=
        le_max_left _ _
      linarith

theorem needBound_nonneg (gasPrice : Int) (accounts : List Account) :
    0 ≤ needBound gasPrice accounts :=
  foldr_max_nonneg _

theorem le_needBound (gasPrice : Int) (accounts : List Account) (a : Account)
    (ha : a ∈ accounts) :
    gasPrice * a.totalAssetTransfer ≤ needBound gasPrice accounts :=
  le_foldr_max _ _ (List.mem_map.mpr ⟨a, ha, rfl⟩)

/-- C3 (amended): For every finite account set with nonnegative
token-gas budgets and every positive gas price, the recursion of the gas
redistribution planner terminates (an explicitly computable fuel bound
suffices to reach the base case, each recursive step emitting exactly
one transaction); however, the total number of emitted transactions is
NOT bounded by the number of accounts — see
`transferGas_txCount_exceeds_accounts` for a 3-account set that emits 4
transactions. -/
theorem transferGas_terminates (gasPrice : Int) (accounts : List Account)
    (hg : 1 ≤ gasPrice)
    (hbudget : ∀ a ∈ accounts, 0 ≤ a.totalAssetTransfer) :
    (transferGas (transferGasFuelBound gasPrice accounts) gasPrice accounts []).isSome := by
  apply transferGas_isSome _ gasPrice (needBound gasPrice accounts) accounts []
    hg (needBound_nonneg _ _)
  · intro a ha
    exact ⟨hbudget a ha, le_needBound _ _ a ha⟩
  · unfold transferGasFuelBound
    have h := Int.self_le_toNat (phi (needBound gasPrice accounts + gasPrice * 21000)
      accounts + accounts.length * (needBound gasPrice accounts + gasPrice * 21000))
    push_cast
    linarith

theorem transferGas_terminates_witness :
    (1 : Int) ≤ 1 ∧
    (transferGas
      (transferGasFuelBound 1
        [{ address := 1, balance := 51001, totalAssetTransfer := 0,
           available := 0, nonce := 0, tokens := [] },
         { address := 2, balance := 21003, totalAssetTransfer := 30000,
           available := 0, nonce := 0, tokens := [] }])
      1
      [{ address := 1, balance := 51001, totalAssetTransfer := 0,
         available := 0, nonce := 0, tokens := [] },
       { address := 2, balance := 21003, totalAssetTransfer := 30000,
         available := 0, nonce := 0, tokens := [] }] []).isSome :=
  ⟨le_refl 1,
    transferGas_terminates 1
      [{ address := 1, balance := 51001, totalAssetTransfer := 0,
         available := 0, nonce := 0, tokens := [] },
       { address := 2, balance := 21003, totalAssetTransfer := 30000,
         available := 0, nonce := 0, tokens := [] }]
      (le_refl 1) (by decide)⟩

/-- C3 (counterexample): The claimed bound "at most n emitted
transactions for n accounts" fails: this 3-account set (one rich
surplus account, one token-heavy account, one small deficit account) at
gas price 1 makes the planner emit 4 transactions before it runs out of
surplus accounts. -/
theorem transferGas_txCount_exceeds_accounts :
    (transferGas 10 1
      [{ address := 1, balance := 51001, totalAssetTransfer := 0,
         available := 0, nonce := 0, tokens := [] },
       { address := 2, balance := 21003, totalAssetTransfer := 30000,
         available := 0, nonce := 0, tokens := [] },
       { address := 3, balance := 0, totalAssetTransfer := 2,
         available := 0, nonce := 0, tokens := [] }] []).map
        (fun r => (r.1.length, r.2.length)) = some (3, 4) ∧ 3 < 4 := by
  constructor
  · rfl
  · decide

/-- C1 (code bug): Conservation fails when the sending surplus
account itself holds tokens: at gas price 1, a sender with
`TotalAssetTransfer = 1` and `Balance = 100000` funds a deficit account
needing 1 unit.  The emitted value is 1 and the fee is 21000, yet the
sender's `Balance` drops from 100000 to 78998 — a decrease of 21002 =
value + fee + gasPrice·TotalAssetTransfer, because the source assigns
`Balance := Available − (need + fee)` instead of subtracting from
`Balance`.  (The receiver does gain exactly the value, 0 → 1.) -/
theorem transferGas_sender_debit_mismatch :
    (transferGas 5 1
      [{ address := 1, balance := 100000, totalAssetTransfer := 1,
         available := 0, nonce := 0, tokens := [] },
       { address := 2, balance := 0, totalAssetTransfer := 1,
         available := 0, nonce := 0, tokens := [] }] []).map
        (fun r => (r.1.map (fun a => (a.address, a.balance)), r.2.map Tx.value)) =
      some ([(2, 1), (1, 78998)], [1]) ∧
    (100000 : Int) - 78998 = 1 + 1 * 21000 + 1 * 1 ∧
    (100000 : Int) - 78998 ≠ 1 + 1 * 21000 := by
  refine ⟨rfl, by decide, by decide⟩

/-- C2 (code bug): The partial-service branch can emit a
transaction whose value is strictly negative and leaves the surplus
account's `Available` negative rather than zero: a surplus account with
`Balance = 5000` and no tokens (Available = 5000 < fee) matched against
a deficit account needing 1 unit emits value 5000 − 21000 = −16000, and
the surplus account ends with `Available = −16001`, because the source
emits unconditionally after clamping and debits the stale un-clamped
`need + fee`. -/
theorem transferGas_emits_nonpositive_value :
    (transferGas 5 1
      [{ address := 1, balance := 5000, totalAssetTransfer := 0,
         available := 0, nonce := 0, tokens := [] },
       { address := 2, balance := 0, totalAssetTransfer := 1,
         available := 0, nonce := 0, tokens := [] }] []).map
        (fun r => (r.2.map Tx.value, r.1.map (fun a => (a.address, a.available)))) =
      some ([-16000], [(2, -16001), (1, -16001)]) ∧
    ¬ (0 : Int) < -16000 := by
  refine ⟨rfl, by decide⟩

/-- C6 (code bug): The deficit sort comparator
(`Available.Cmp ≤ 0`) orders ascending `Available`, so the MOST
deficient account is matched first, contradicting both the claim and
the source's own comment ("least 'need' first"): with surplus account
10 and deficit accounts 11 (`Available = −2`, greater need) and
12 (`Available = −1`, least need), the planner funds 11 before 12. -/
theorem transferGas_most_deficient_first :
    (transferGas 6 1
      [{ address := 10, balance := 50000, totalAssetTransfer := 0,
         available := 0, nonce := 0, tokens := [] },
       { address := 11, balance := 0, totalAssetTransfer := 2,
         available := 0, nonce := 0, tokens := [] },
       { address := 12, balance := 0, totalAssetTransfer := 1,
         available := 0, nonce := 0, tokens := [] }] []).map
        (fun r => r.2.map (fun tx => (tx.toAddr, tx.value))) =
      some [(11, 2), (12, 1)] ∧
    (0 : Int) - 1 * 2 < 0 - 1 * 1 := by
  refine ⟨rfl, by decide⟩

/-- C5 (amended): On an identical snapshot list the planners are
pure functions, and each sort comparator is total (any two elements are
comparable, so sorting succeeds); but every comparator consults only
its key — surplus accounts descending `Available`, deficit accounts
ascending `Available`, tokens descending `balance` — and holds in BOTH
directions on equal keys: no secondary key such as the address takes
part, so the comparators are not strict total orders and the relative
order of equal-key elements is left to the unstable sort, not fixed by
any tie-break rule. -/
theorem sortComparators_key_only :
    (∀ a b : Account, posOrder a b ∨ posOrder b a) ∧
    (∀ a b : Account, negOrder a b ∨ negOrder b a) ∧
    (∀ t u : Token, tokenOrder t u ∨ tokenOrder u t) ∧
    (∀ a b : Account, a.available = b.available → posOrder a b ∧ posOrder b a) ∧
    (∀ a b : Account, a.available = b.available → negOrder a b ∧ negOrder b a) ∧
    (∀ t u : Token, t.balance = u.balance → tokenOrder t u ∧ tokenOrder u t) := by
  refine ⟨fun a b => le_total b.available a.available,
    fun a b => le_total a.available b.available,
    fun t u => le_total u.balance t.balance, ?_, ?_, ?_⟩
  · intro a b h
    exact ⟨le_of_eq h.symm, le_of_eq h⟩
  · intro a b h
    exact ⟨le_of_eq h, le_of_eq h.symm⟩
  · intro t u h
    exact ⟨le_of_eq h.symm, le_of_eq h⟩

theorem sortComparators_key_only_witness :
    posOrder
      { address := 1, balance := 7, totalAssetTransfer := 0, available := 5,
        nonce := 0, tokens := [] }
      { address := 2, balance := 9, totalAssetTransfer := 3, available := 5,
        nonce := 4, tokens := [] } ∧
    posOrder
      { address := 2, balance := 9, totalAssetTransfer := 3, available := 5,
        nonce := 4, tokens := [] }
      { address := 1, balance := 7, totalAssetTransfer := 0, available := 5,
        nonce := 0, tokens := [] } :=
  sortComparators_key_only.2.2.2.1
    { address := 1, balance := 7, totalAssetTransfer := 0, available := 5,
      nonce := 0, tokens := [] }
    { address := 2, balance := 9, totalAssetTransfer := 3, available := 5,
      nonce := 4, tokens := [] } rfl

/-- C5 (counterexample): The sorts are not deterministic total
orders with an address tie-break: the surplus comparator is not even
antisymmetric.  Two accounts differing in address (1 versus 2) but with
equal `Available` each compare as "sorted before" the other, so no
secondary key orders them. -/
theorem posOrder_not_antisymm :
    ¬ (∀ a b : Account, posOrder a b → posOrder b a → a = b) := by
  intro h
  have h2 := h
    { address := 1, balance := 0, totalAssetTransfer := 0, available := 5,
      nonce := 0, tokens := [] }
    { address := 2, balance := 0, totalAssetTransfer := 0, available := 5,
      nonce := 0, tokens := [] }
    (le_refl 5) (le_refl 5)
  exact absurd (congrArg Account.address h2) (by decide)

/-- C9 (code bug): The override is applied whenever the estimated
gas limit is positive — i.e. essentially always, since even a failed
estimate falls back to 40000 — not only when an override is explicitly
configured.  With a successful estimate of 50000 and the Go zero-value
override 0 (no override configured), the recorded gas limit is 0, not
the inflated estimate (here shown with the inflation stubbed at 85000:
the branch never reads it); and with a failed estimate the nonzero
override 12345 still replaces the inflated fallback. -/
theorem chosenTransferGas_override_unconditional :
    chosenTransferGas (fun gl => (gl : Int)) (some 50000) 0 = 0 ∧
    chosenTransferGas (fun _ => 85000) (some 50000) 0 = 0 ∧
    chosenTransferGas (fun _ => 68000) none 12345 = 12345 := by
  refine ⟨rfl, rfl, rfl⟩

/-- Everything `getBalanceTx` guarantees about an emitted drain
transaction, proved by strong induction on the gas price (the recursion
lowers it by a fixed positive decrement). -/
theorem getBalanceTx_some_spec (dest : Nat) (account : Account) :
    ∀ (gasPrice : Int) (tx : Tx), getBalanceTx dest gasPrice account = some tx →
      0 < tx.value ∧ 0 < tx.gasPrice ∧ tx.value + tx.gasPrice * 21000 = account.balance ∧
      tx.nonce = account.nonce ∧ tx.sender = account.address := by
  intro gasPrice
  generalize hn : gasPrice.toNat = n
  induction n using Nat.strong_induction_on generalizing gasPrice with
  | _ n ih =>
    intro tx h
    rw [getBalanceTx] at h
    split at h
    · rename_i hc
      obtain rfl := Option.some.inj h
      exact ⟨hc.1, hc.2, by ring, rfl, rfl⟩
    · split at h
      · rename_i hc2
        exact ih (gasPrice - 1000000).toNat (by omega) (gasPrice - 1000000) rfl tx h
      · exact absurd h (by simp)

theorem transferBalances_fst (dest : Nat) (gasPrice : Int) :
    ∀ accounts : List Account, (transferBalances dest gasPrice accounts).1 = accounts := by
  intro accounts
  induction accounts with
  | nil => rfl
  | cons a rest ih =>
    rw [transferBalances]
    cases hget : getBalanceTx dest gasPrice a with
    | none => simp [hget, ih]
    | some tx => simp [hget, ih]

/-- C4: The balance-drain builder terminates for every account and
initial gas price (it is a total function, by well-founded recursion on
the gas price, which falls by the fixed decrement 1000000 per retry),
and whenever it emits a transaction the value is strictly positive, the
chosen gas price is strictly positive (never zero or negative), and
value + chosen gas price × 21000 equals the account's `Balance`
exactly. -/
theorem getBalanceTx_exact (destinationAddress : Nat) (gasPrice : Int)
    (account : Account) (tx : Tx)
    (h : getBalanceTx destinationAddress gasPrice account = some tx) :
    0 < tx.value ∧ 0 < tx.gasPrice ∧ tx.value + tx.gasPrice * 21000 = account.balance :=
  ⟨(getBalanceTx_some_spec destinationAddress account gasPrice tx h).1,
   (getBalanceTx_some_spec destinationAddress account gasPrice tx h).2.1,
   (getBalanceTx_some_spec destinationAddress account gasPrice tx h).2.2.1⟩

theorem getBalanceTx_exact_witness :
    0 < (9000 : Int) ∧ 0 < (1 : Int) ∧ (9000 : Int) + 1 * 21000 = 30000 :=
  getBalanceTx_exact 9 1
    { address := 4, balance := 30000, totalAssetTransfer := 0, available := 0,
      nonce := 7, tokens := [] }
    { sender := 4, nonce := 7, toAddr := 9, value := 9000, gasLimit := 21000,
      gasPrice := 1, data := [] }
    (by rw [getBalanceTx]; norm_num)

/-- C10: Balance-drain planning is read-only on account state: the
planner returns every visited account exactly as it found it (no
balance debit, no `Available` or token change), and an emitted drain
transaction carries the account's CURRENT nonce — the nonce is not
advanced by planning, unlike in the other two planners. -/
theorem transferBalances_readOnly (destinationAddress : Nat) (gasPrice : Int)
    (accounts : List Account) :
    (transferBalances destinationAddress gasPrice accounts).1 = accounts ∧
    ∀ a ∈ accounts, ∀ tx, getBalanceTx destinationAddress gasPrice a = some tx →
      tx.nonce = a.nonce ∧ tx.sender = a.address := by
  refine ⟨transferBalances_fst destinationAddress gasPrice accounts, ?_⟩
  intro a _ tx h
  exact ⟨(getBalanceTx_some_spec destinationAddress a gasPrice tx h).2.2.2.1,
    (getBalanceTx_some_spec destinationAddress a gasPrice tx h).2.2.2.2⟩

theorem transferBalances_readOnly_witness :
    (transferBalances 9 1
      [{ address := 4, balance := 30000, totalAssetTransfer := 0, available := 0,
         nonce := 7, tokens := [] }]).1 =
      [{ address := 4, balance := 30000, totalAssetTransfer := 0, available := 0,
         nonce := 7, tokens := [] }] ∧
    (7 : Nat) = 7 ∧ (4 : Nat) = 4 :=
  ⟨(transferBalances_readOnly 9 1
      [{ address := 4, balance := 30000, totalAssetTransfer := 0, available := 0,
         nonce := 7, tokens := [] }]).1,
   (transferBalances_readOnly 9 1
      [{ address := 4, balance := 30000, totalAssetTransfer := 0, available := 0,
         nonce := 7, tokens := [] }]).2
     { address := 4, balance := 30000, totalAssetTransfer := 0, available := 0,
       nonce := 7, tokens := [] }
     (List.mem_singleton.mpr rfl)
     { sender := 4, nonce := 7, toAddr := 9, value := 9000, gasLimit := 21000,
       gasPrice := 1, data := [] }
     (by rw [getBalanceTx]; norm_num)⟩

/-- The running state of the token-sweep loop: every emitted
transaction's fee is affordable at its moment of evaluation, the nonce
advances by exactly one per emitted transaction, and the balance drops
by exactly the sum of the emitted fees. -/
theorem sweepTokens_state (methodID destHash : List Nat) (gasPrice : Int) :
    ∀ (ts : List Token) (a : Account),
      (sweepTokens methodID destHash gasPrice a ts).1.nonce =
        a.nonce + (sweepTokens methodID destHash gasPrice a ts).2.length ∧
      (sweepTokens methodID destHash gasPrice a ts).1.balance =
        a.balance - ((sweepTokens methodID destHash gasPrice a ts).2.map
          (fun tx => gasPrice * (tx.gasLimit : Int))).sum ∧
      ∀ k, ∀ hk : k < (sweepTokens methodID destHash gasPrice a ts).2.length,
        gasPrice * ((((sweepTokens methodID destHash gasPrice a ts).2).get
            ⟨k, hk⟩).gasLimit : Int) ≤
          a.balance - (((sweepTokens methodID destHash gasPrice a ts).2.take k).map
            (fun tx => gasPrice * (tx.gasLimit : Int))).sum ∧
        (((sweepTokens methodID destHash gasPrice a ts).2).get ⟨k, hk⟩).nonce =
          a.nonce + k := by
  intro ts
  induction ts with
  | nil =>
    intro a
    refine ⟨by simp [sweepTokens], by simp [sweepTokens], ?_⟩
    intro k hk
    simp [sweepTokens] at hk
  | cons t ts ih =>
    intro a
    by_cases hc : totalTransferPrice gasPrice t ≤ a.balance
    · have hrw : sweepTokens methodID destHash gasPrice a (t :: ts) =
        ((sweepTokens methodID destHash gasPrice
            { a with nonce := a.nonce + 1,
                     balance := a.balance - totalTransferPrice gasPrice t } ts).1,
          { sender := a.address, nonce := a.nonce, toAddr := t.contract,
            value := 0, gasLimit := t.gasLimit, gasPrice := gasPrice,
            data := methodID ++ destHash ++
              leftPadBytes (natToBEBytes t.balance.natAbs) 32 } ::
          (sweepTokens methodID destHash gasPrice
            { a with nonce := a.nonce + 1,
                     balance := a.balance - totalTransferPrice gasPrice t } ts).2) := by
        rw [sweepTokens]
        simp [hc]
      obtain ⟨ih1, ih2, ih3⟩ :=
        ih ({ a with nonce := a.nonce + 1, balance := a.balance - totalTransferPrice gasPrice t })
      rw [hrw]
      refine ⟨?_, ?_, ?_⟩
      · simp only [List.length_cons]
        rw [ih1]
        simp
        omega
      · rw [ih2]
        simp [totalTransferPrice]
        ring
      · intro k hk
        cases k with
        | zero =>
          constructor
          · simpa [totalTransferPrice] using hc
          · rfl
        | succ k =>
          have hk' : k < (sweepTokens methodID destHash gasPrice
              { a with nonce := a.nonce + 1,
                       balance := a.balance - totalTransferPrice gasPrice t } ts).2.length := by
            simpa using hk
          obtain ⟨h1, h2⟩ := ih3 k hk'
          constructor
          · simp only [List.get_cons_succ, List.take_succ_cons, List.map_cons,
              List.sum_cons]
            simp [totalTransferPrice] at h1 ⊢
            linarith [h1]
          · simp only [List.get_cons_succ]
            rw [h2]
            simp
            omega
    · have hrw : sweepTokens methodID destHash gasPrice a (t :: ts) =
        sweepTokens methodID destHash gasPrice a ts := by
        rw [sweepTokens]
        simp [hc]
      rw [hrw]
      exact ih a

/-- C7: For every account, the token sweep planner evaluates tokens
in descending order of raw token balance (the sorted list it walks is
`Sorted tokenOrder`), never emits a sweep whose fee
(`gasPrice × GasLimit`) exceeds the account's native balance at the
moment that token is evaluated (the running balance after the previous
fees), skips unaffordable tokens without aborting, and each emitted
sweep debits exactly its fee and advances the nonce by exactly one
(the k-th emitted transaction carries nonce `a.nonce + k`). -/
theorem transferTokensAccount_spec (methodID destHash : List Nat) (gasPrice : Int)
    (a : Account) :
    List.Sorted tokenOrder (List.insertionSort tokenOrder a.tokens) ∧
    (transferTokensAccount methodID destHash gasPrice a).1.nonce =
      a.nonce + (transferTokensAccount methodID destHash gasPrice a).2.length ∧
    (transferTokensAccount methodID destHash gasPrice a).1.balance =
      a.balance - ((transferTokensAccount methodID destHash gasPrice a).2.map
        (fun tx => gasPrice * (tx.gasLimit : Int))).sum ∧
    ∀ k, ∀ hk : k < (transferTokensAccount methodID destHash gasPrice a).2.length,
      gasPrice * ((((transferTokensAccount methodID destHash gasPrice a).2).get
          ⟨k, hk⟩).gasLimit : Int) ≤
        a.balance - (((transferTokensAccount methodID destHash gasPrice a).2.take k).map
          (fun tx => gasPrice * (tx.gasLimit : Int))).sum ∧
      (((transferTokensAccount methodID destHash gasPrice a).2).get ⟨k, hk⟩).nonce =
        a.nonce + k := by
  obtain ⟨h1, h2, h3⟩ := sweepTokens_state methodID destHash gasPrice
    (List.insertionSort tokenOrder a.tokens)
    ({ a with tokens := List.insertionSort tokenOrder a.tokens })
  exact ⟨List.sorted_insertionSort tokenOrder a.tokens, h1, h2, h3⟩

theorem transferTokensAccount_spec_witness :
    (transferTokensAccount [1, 2, 3, 4] (List.replicate 32 0) 1 sampleTokenAccount).1.nonce =
      sampleTokenAccount.nonce +
        (transferTokensAccount [1, 2, 3, 4] (List.replicate 32 0) 1 sampleTokenAccount).2.length ∧
    (((transferTokensAccount [1, 2, 3, 4] (List.replicate 32 0) 1 sampleTokenAccount).2).get
        ⟨0, by decide⟩).nonce = sampleTokenAccount.nonce + 0 :=
  ⟨(transferTokensAccount_spec [1, 2, 3, 4] (List.replicate 32 0) 1 sampleTokenAccount).2.1,
   ((transferTokensAccount_spec [1, 2, 3, 4] (List.replicate 32 0) 1
      sampleTokenAccount).2.2.2 0 (by decide)).2⟩

theorem beBytesToNat_append_singleton (l : List Nat) (b : Nat) :
    beBytesToNat (l ++ [b]) = beBytesToNat l * 256 + b := by
  simp [beBytesToNat, List.foldl_append]

theorem beBytesToNat_natToBEBytesAux :
    ∀ fuel n : Nat, n ≤ fuel → beBytesToNat (natToBEBytesAux fuel n) = n := by
  intro fuel
  induction fuel with
  | zero =>
    intro n hn
    have : n = 0 := by omega
    simp [natToBEBytesAux, beBytesToNat, this]
  | succ fuel ih =>
    intro n hn
    rw [natToBEBytesAux]
    split
    · rename_i h
      simp [beBytesToNat, h]
    · rename_i h
      rw [beBytesToNat_append_singleton, ih (n / 256) (by omega)]
      omega

theorem beBytesToNat_natToBEBytes (n : Nat) :
    beBytesToNat (natToBEBytes n) = n :=
  beBytesToNat_natToBEBytesAux n n le_rfl

theorem beBytesToNat_replicate_zero (k : Nat) (l : List Nat) :
    beBytesToNat (List.replicate k 0 ++ l) = beBytesToNat l := by
  induction k with
  | zero => simp
  | succ k ih =>
    rw [List.replicate_succ, List.cons_append]
    show beBytesToNat (0 :: (List.replicate k 0 ++ l)) = beBytesToNat l
    simpa [beBytesToNat] using ih

theorem natToBEBytesAux_length :
    ∀ fuel n k : Nat, n ≤ fuel → n < 256 ^ k → (natToBEBytesAux fuel n).length ≤ k := by
  intro fuel
  induction fuel with
  | zero =>
    intro n k hn hk
    simp [natToBEBytesAux]
  | succ fuel ih =>
    intro n k hn hk
    rw [natToBEBytesAux]
    split
    · simp
    · rename_i h
      cases k with
      | zero =>
        simp at hk
        omega
      | succ k =>
        have hdiv : n / 256 < 256 ^ k := by
          rw [Nat.div_lt_iff_lt_mul (by norm_num : 0 < 256)]
          rw [pow_succ] at hk
          exact hk
        have := ih (n / 256) k (by omega) hdiv
        simp [List.length_append]
        omega

theorem natToBEBytes_length (n k : Nat) (h : n < 256 ^ k) :
    (natToBEBytes n).length ≤ k :=
  natToBEBytesAux_length n n k le_rfl h

theorem leftPadBytes_eq (b : List Nat) (n : Nat) (h : b.length ≤ n) :
    leftPadBytes b n = List.replicate (n - b.length) 0 ++ b := by
  unfold leftPadBytes
  split
  · rename_i h2
    have h3 : n - b.length = 0 := by omega
    simp [h3]
  · rfl

theorem leftPadBytes_length (b : List Nat) (n : Nat) (h : b.length ≤ n) :
    (leftPadBytes b n).length = n := by
  rw [leftPadBytes_eq b n h]
  simp
  omega

/-- C8: Every token-sweep call data is bit-exact: 4 bytes taken
from the front (the low-order end of the digest byte sequence as the
source slices it, `hash.Sum(nil)[:4]`) of the Keccak-256 hash of the
literal ASCII signature `transfer(address,uint256)`, then 32 bytes
holding the 20-byte destination address right-aligned behind 12 zero
bytes, then 32 bytes holding the token amount as a right-aligned
big-endian unsigned integer — 68 bytes in total.  The Keccak-256
permutation is the external `sha3` collaborator, abstracted as a
function together with the length of its digest. -/
theorem transferTokenData_layout (keccak256 : List Nat → List Nat)
    (destinationAddress : List Nat) (amount : Nat)
    (hk : 4 ≤ (keccak256 transferSignatureBytes).length)
    (haddr : destinationAddress.length = 20)
    (hamt : amount < 256 ^ 32) :
    (transferTokenData keccak256 destinationAddress amount).length = 68 ∧
    (transferTokenData keccak256 destinationAddress amount).take 4 =
      (keccak256 transferSignatureBytes).take 4 ∧
    ((transferTokenData keccak256 destinationAddress amount).drop 4).take 32 =
      List.replicate 12 0 ++ destinationAddress ∧
    ((transferTokenData keccak256 destinationAddress amount).drop 36).length = 32 ∧
    beBytesToNat ((transferTokenData keccak256 destinationAddress amount).drop 36) =
      amount := by
  have hmlen : ((keccak256 transferSignatureBytes).take 4).length = 4 := by
    simp [List.length_take]
    omega
  have hhash : bytesToHash destinationAddress =
      List.replicate 12 0 ++ destinationAddress := by
    unfold bytesToHash
    rw [haddr]
    norm_num
  have hhlen : (bytesToHash destinationAddress).length = 32 := by
    rw [hhash]
    simp [haddr]
  have hblen : (natToBEBytes amount).length ≤ 32 := natToBEBytes_length amount 32 hamt
  have hplen : (leftPadBytes (natToBEBytes amount) 32).length = 32 :=
    leftPadBytes_length _ _ hblen
  have hassoc : transferTokenData keccak256 destinationAddress amount =
      (keccak256 transferSignatureBytes).take 4 ++
        (bytesToHash destinationAddress ++ leftPadBytes (natToBEBytes amount) 32) := by
    unfold transferTokenData
    rw [List.append_assoc]
  have hdrop4 : (transferTokenData keccak256 destinationAddress amount).drop 4 =
      bytesToHash destinationAddress ++ leftPadBytes (natToBEBytes amount) 32 := by
    rw [hassoc]
    exact List.drop_left' hmlen
  have hdrop36 : (transferTokenData keccak256 destinationAddress amount).drop 36 =
      leftPadBytes (natToBEBytes amount) 32 := by
    unfold transferTokenData
    have h36 : ((keccak256 transferSignatureBytes).take 4 ++
        bytesToHash destinationAddress).length = 36 := by
      rw [List.length_append, hmlen, hhlen]
    exact List.drop_left' h36
  refine ⟨?_, ?_, ?_, ?_, ?_⟩
  · unfold transferTokenData
    rw [List.length_append, List.length_append, hmlen, hhlen, hplen]
  · rw [hassoc]
    exact List.take_left' hmlen
  · rw [hdrop4, hhash]
    have h32 : (List.replicate 12 0 ++ destinationAddress).length = 32 := by
      simp [haddr]
    rw [← hhash] at h32 ⊢
    exact List.take_left' hhlen
  · rw [hdrop36, hplen]
  · rw [hdrop36, leftPadBytes_eq _ _ hblen, beBytesToNat_replicate_zero,
      beBytesToNat_natToBEBytes]

theorem transferTokenData_layout_witness :
    (transferTokenData (fun _ => List.replicate 32 7) (List.replicate 20 5) 1000).length = 68 ∧
    (transferTokenData (fun _ => List.replicate 32 7) (List.replicate 20 5) 1000).take 4 =
      ((fun _ => List.replicate 32 7) transferSignatureBytes).take 4 ∧
    ((transferTokenData (fun _ => List.replicate 32 7) (List.replicate 20 5) 1000).drop 4).take 32 =
      List.replicate 12 0 ++ List.replicate 20 5 ∧
    ((transferTokenData (fun _ => List.replicate 32 7) (List.replicate 20 5) 1000).drop 36).length = 32 ∧
    beBytesToNat ((transferTokenData (fun _ => List.replicate 32 7)
      (List.replicate 20 5) 1000).drop 36) = 1000 :=
  transferTokenData_layout (fun _ => List.replicate 32 7) (List.replicate 20 5) 1000
    (by decide) (by decide) (by norm_num)
